import Mathlib

/-!
Shallow embedding of the resilient remote-call gateway of the
`angelpredict` repository: the token-bucket rate limiter
(`src/rate_limiter.py`), the TTL/LRU response cache (`src/api_cache.py`),
the exponential-backoff retrier (`src/retry_logic.py`) and the guarded
fetch that composes them (`src/angelone_client.py`, `get_historical_data`).

Python machine model used throughout:
* `time.time()` values and float arithmetic on delays/tokens are modelled
  by `ℚ` (the code only adds, multiplies and compares such values);
* Python `int` is `ℤ` (or `ℕ` for values that are validated positive);
* a raised exception is an `Except.error` carrying a `PyError` value;
* `collections.OrderedDict` is an association list, head = oldest entry,
  `move_to_end` = remove + append, `popitem(last=False)` = drop the head.
-/

/- Batteries marks the `Rat` arithmetic operations `@[irreducible]`,
which blocks `decide`/`rfl` evaluation of the embedded code on concrete
inputs; restore the ordinary transparency for this file. -/
attribute [local semireducible] Rat.add Rat.sub Rat.mul Rat.inv

set_option maxRecDepth 8000

namespace AngelPredict

/-- Exception values raised by the embedded code.  `valueError` models
Python's `ValueError`; `rateLimitError` and `networkError` model the
`RateLimitError`/`NetworkError` subclasses of `RetryableError` declared in
`src/retry_logic.py`; `otherError` models any other exception class
(every constructor models a subclass of Python's `Exception`). -/
inductive PyError where
  | valueError (msg : String)
  | rateLimitError (msg : String)
  | networkError (msg : String)
  | otherError (tag : ℕ)
deriving DecidableEq, Repr

/-- `isinstance(e, RateLimitError)`. -/
def isRateLimitError : PyError → Bool
  | .rateLimitError _ => true
  | _ => false

/-- `isinstance(e, NetworkError)`. -/
def isNetworkError : PyError → Bool
  | .networkError _ => true
  | _ => false

/-- `isinstance(e, Exception)` — every modelled error class derives from
`Exception`. -/
def isException : PyError → Bool := fun _ => true

/-! ## Token-bucket rate limiter (`src/rate_limiter.py`) -/

/-- The mutable state of `RateLimiter`: `rate` tokens are added per second
up to `capacity`; `tokens` is the current fill, `last_update` the time of
the last refill. -/
structure RateLimiter where
  rate : ℚ
  capacity : ℤ
  tokens : ℚ
  last_update : ℚ
deriving DecidableEq, Repr

/-- `RateLimiter.__init__` after its `rate > 0` / `capacity > 0`
validation succeeded: the bucket starts full (`tokens = float(capacity)`)
with `last_update = time.time()` (the construction instant `now`). -/
def mkRateLimiter (rate : ℚ) (capacity : ℤ) (now : ℚ) : RateLimiter :=
  { rate := rate, capacity := capacity, tokens := (capacity : ℚ), last_update := now }

/-- `RateLimiter._refill_tokens`, with the current clock passed
explicitly: `tokens = min(capacity, tokens + elapsed * rate)`,
`last_update = now`. -/
def RateLimiter.refillTokens (rl : RateLimiter) (now : ℚ) : RateLimiter :=
  let elapsed := now - rl.last_update
  let tokens_to_add := elapsed * rl.rate
  { rl with tokens := min (rl.capacity : ℚ) (rl.tokens + tokens_to_add), last_update := now }

/-- `RateLimiter.try_acquire`: raises `ValueError` on `tokens ≤ 0`,
returns `False` without touching the state on `tokens > capacity`,
otherwise refills and either consumes the tokens (returning `True`) or
returns `False`. -/
def RateLimiter.tryAcquire (rl : RateLimiter) (tokens : ℤ) (now : ℚ) :
    Except PyError (Bool × RateLimiter) :=
  if tokens ≤ 0 then .error (.valueError "Tokens must be positive")
  else if tokens > rl.capacity then .ok (false, rl)
  else
    let rl := rl.refillTokens now
    if rl.tokens ≥ (tokens : ℚ) then .ok (true, { rl with tokens := rl.tokens - (tokens : ℚ) })
    else .ok (false, rl)

/-- One iteration of the polling loop inside `RateLimiter.acquire`
(validation, then refill-and-check under the lock; the sleep between
iterations is external waiting and does not touch the state).  A full
`acquire` call is a sequence of such iterations at increasing times.
Raises `ValueError` when `tokens ≤ 0` or `tokens > capacity`. -/
def RateLimiter.acquireIter (rl : RateLimiter) (tokens : ℤ) (now : ℚ) :
    Except PyError (Bool × RateLimiter) :=
  if tokens ≤ 0 then .error (.valueError "Tokens must be positive")
  else if tokens > rl.capacity then
    .error (.valueError "Requested tokens exceeds capacity")
  else
    let rl := rl.refillTokens now
    if rl.tokens ≥ (tokens : ℚ) then .ok (true, { rl with tokens := rl.tokens - (tokens : ℚ) })
    else .ok (false, rl)

/-- Python `int(x)` (truncation toward zero). -/
def pyInt (q : ℚ) : ℤ := if 0 ≤ q then ⌊q⌋ else -⌊-q⌋

/-- `RateLimiter.get_available_tokens`: refill, then `int(self.tokens)`. -/
def RateLimiter.getAvailableTokens (rl : RateLimiter) (now : ℚ) : ℤ × RateLimiter :=
  let rl := rl.refillTokens now
  (pyInt rl.tokens, rl)

/-- The operations a client can perform on a `RateLimiter`, each tagged
with the clock value at which it runs.  `acquireIter` is one iteration of
the blocking `acquire` loop; `refill` is a bare `_refill_tokens` call. -/
inductive RLOp where
  | refill (now : ℚ)
  | tryAcquire (n : ℤ) (now : ℚ)
  | acquireIter (n : ℤ) (now : ℚ)
  | getAvailable (now : ℚ)
deriving DecidableEq, Repr

/-- The clock value carried by an operation. -/
def RLOp.time : RLOp → ℚ
  | .refill t => t
  | .tryAcquire _ t => t
  | .acquireIter _ t => t
  | .getAvailable t => t

/-- The limiter state after a call that may raise: a raised `ValueError`
leaves the state untouched (the Python code validates before mutating). -/
def exceptState (rl : RateLimiter) : Except PyError (Bool × RateLimiter) → RateLimiter
  | .ok (_, rl') => rl'
  | .error _ => rl

/-- State transition of one operation. -/
def RateLimiter.step (rl : RateLimiter) : RLOp → RateLimiter
  | .refill now => rl.refillTokens now
  | .tryAcquire n now => exceptState rl (rl.tryAcquire n now)
  | .acquireIter n now => exceptState rl (rl.acquireIter n now)
  | .getAvailable now => (rl.getAvailableTokens now).2

/-- Run a sequence of operations. -/
def RateLimiter.run (rl : RateLimiter) (ops : List RLOp) : RateLimiter :=
  ops.foldl RateLimiter.step rl

/-- The operation times are non-decreasing and start no earlier than `t`
(the wall clock never runs backwards across the sequence). -/
def timesMono : ℚ → List RLOp → Bool
  | _, [] => true
  | t, op :: ops => decide (t ≤ op.time) && timesMono op.time ops

/-- The bucket-fill invariant of the data model: `0 ≤ tokens ≤ capacity`. -/
def RateLimiter.inv (rl : RateLimiter) : Prop :=
  0 ≤ rl.tokens ∧ rl.tokens ≤ (rl.capacity : ℚ)

theorem refillTokens_capacity (rl : RateLimiter) (now : ℚ) :
    (rl.refillTokens now).capacity = rl.capacity := rfl

theorem refillTokens_inv (rl : RateLimiter) (now : ℚ) (hr : 0 ≤ rl.rate)
    (hc : 0 ≤ (rl.capacity : ℚ)) (ht : rl.last_update ≤ now) (h : rl.inv) :
    (rl.refillTokens now).inv := by
  obtain ⟨h0, _⟩ := h
  refine ⟨le_min hc ?_, min_le_left _ _⟩
  exact add_nonneg h0 (mul_nonneg (sub_nonneg.mpr ht) hr)

theorem step_capacity (rl : RateLimiter) (op : RLOp) : (rl.step op).capacity = rl.capacity := by
  cases op with
  | refill now => rfl
  | tryAcquire n now =>
      simp only [RateLimiter.step, RateLimiter.tryAcquire]
      split <;> try rfl
      split <;> try rfl
      split <;> rfl
  | acquireIter n now =>
      simp only [RateLimiter.step, RateLimiter.acquireIter]
      split <;> try rfl
      split <;> try rfl
      split <;> rfl
  | getAvailable now => rfl

theorem step_rate (rl : RateLimiter) (op : RLOp) : (rl.step op).rate = rl.rate := by
  cases op with
  | refill now => rfl
  | tryAcquire n now =>
      simp only [RateLimiter.step, RateLimiter.tryAcquire]
      split <;> try rfl
      split <;> try rfl
      split <;> rfl
  | acquireIter n now =>
      simp only [RateLimiter.step, RateLimiter.acquireIter]
      split <;> try rfl
      split <;> try rfl
      split <;> rfl
  | getAvailable now => rfl

theorem step_inv (rl : RateLimiter) (op : RLOp) (hr : 0 ≤ rl.rate)
    (hc : 0 ≤ (rl.capacity : ℚ)) (h : rl.inv) (ht : rl.last_update ≤ op.time) :
    (rl.step op).inv := by
  cases op with
  | refill now => exact refillTokens_inv rl now hr hc ht h
  | tryAcquire n now =>
      have hre := refillTokens_inv rl now hr hc ht h
      simp only [RateLimiter.step, RateLimiter.tryAcquire]
      split
      · exact h
      split
      · exact h
      have hn : (0 : ℚ) ≤ (n : ℚ) := by
        have h0 : 0 < n := lt_of_not_le (by assumption)
        exact_mod_cast h0.le
      split
      · rename_i hge
        obtain ⟨hre1, hre2⟩ := hre
        simp only [exceptState, RateLimiter.inv]
        constructor
        · simpa using sub_nonneg.mpr hge
        · have : ((rl.refillTokens now).capacity : ℚ) = ((rl.capacity : ℚ)) := by
            rw [refillTokens_capacity]
          simp only [RateLimiter.refillTokens] at hre2 ⊢
          linarith
      · exact hre
  | acquireIter n now =>
      have hre := refillTokens_inv rl now hr hc ht h
      simp only [RateLimiter.step, RateLimiter.acquireIter]
      split
      · exact h
      split
      · exact h
      have hn : (0 : ℚ) ≤ (n : ℚ) := by
        have h0 : 0 < n := lt_of_not_le (by assumption)
        exact_mod_cast h0.le
      split
      · rename_i hge
        obtain ⟨hre1, hre2⟩ := hre
        simp only [exceptState, RateLimiter.inv]
        constructor
        · simpa using sub_nonneg.mpr hge
        · have : ((rl.refillTokens now).capacity : ℚ) = ((rl.capacity : ℚ)) := by
            rw [refillTokens_capacity]
          simp only [RateLimiter.refillTokens] at hre2 ⊢
          linarith
      · exact hre
  | getAvailable now => exact refillTokens_inv rl now hr hc ht h

theorem step_last_update (rl : RateLimiter) (op : RLOp) (ht : rl.last_update ≤ op.time) :
    (rl.step op).last_update ≤ op.time := by
  cases op with
  | refill now => exact le_refl _
  | tryAcquire n now =>
      simp only [RateLimiter.step, RateLimiter.tryAcquire]
      split
      · exact ht
      split
      · exact ht
      split <;> exact le_refl _
  | acquireIter n now =>
      simp only [RateLimiter.step, RateLimiter.acquireIter]
      split
      · exact ht
      split
      · exact ht
      split <;> exact le_refl _
  | getAvailable now => exact le_refl _

theorem timesMono_mono (t t' : ℚ) (ops : List RLOp) (h : t' ≤ t)
    (hm : timesMono t ops = true) : timesMono t' ops = true := by
  cases ops with
  | nil => rfl
  | cons op ops =>
      simp only [timesMono, Bool.and_eq_true, decide_eq_true_eq] at hm ⊢
      exact ⟨le_trans h hm.1, hm.2⟩

theorem run_inv (rl : RateLimiter) (ops : List RLOp) (hr : 0 ≤ rl.rate)
    (hc : 0 ≤ (rl.capacity : ℚ)) (h : rl.inv) (hm : timesMono rl.last_update ops = true) :
    (rl.run ops).inv := by
  induction ops generalizing rl with
  | nil => exact h
  | cons op ops ih =>
      simp only [timesMono, Bool.and_eq_true, decide_eq_true_eq] at hm
      have hstep := step_inv rl op hr hc h hm.1
      have hlu := step_last_update rl op hm.1
      have hr' : 0 ≤ (rl.step op).rate := (step_rate rl op) ▸ hr
      have hc' : 0 ≤ ((rl.step op).capacity : ℚ) := (step_capacity rl op) ▸ hc
      exact ih (rl.step op) hr' hc' hstep (timesMono_mono _ _ _ hlu hm.2)

theorem run_capacity (rl : RateLimiter) (ops : List RLOp) :
    (rl.run ops).capacity = rl.capacity := by
  induction ops generalizing rl with
  | nil => rfl
  | cons op ops ih => exact (ih (rl.step op)).trans (step_capacity rl op)

theorem timesMono_append_left (t : ℚ) (l1 l2 : List RLOp)
    (h : timesMono t (l1 ++ l2) = true) : timesMono t l1 = true := by
  induction l1 generalizing t with
  | nil => rfl
  | cons op ops ih =>
      simp only [List.cons_append, timesMono, Bool.and_eq_true, decide_eq_true_eq] at h ⊢
      exact ⟨h.1, ih _ h.2⟩

/-- Claim C4: a limiter constructed with rate `R > 0` and capacity `C > 0`
satisfies `0 ≤ tokens ≤ C` at every observation point of any sequence of
refill / `try_acquire` / `acquire`-iteration / `get_available_tokens`
operations run at non-decreasing clock values. -/
theorem C4_tokens_invariant (R : ℚ) (C : ℤ) (t0 : ℚ) (hR : 0 < R) (hC : 0 < C)
    (ops1 ops2 : List RLOp) (hm : timesMono t0 (ops1 ++ ops2) = true) :
    0 ≤ ((mkRateLimiter R C t0).run ops1).tokens ∧
      ((mkRateLimiter R C t0).run ops1).tokens ≤ (C : ℚ) := by
  have hc : (0 : ℚ) ≤ ((mkRateLimiter R C t0).capacity : ℚ) := by
    simp only [mkRateLimiter]
    exact_mod_cast hC.le
  have hinv : (mkRateLimiter R C t0).inv := ⟨hc, le_refl _⟩
  have h := run_inv (mkRateLimiter R C t0) ops1 hR.le hc hinv
    (timesMono_append_left _ _ _ hm)
  have hcap := run_capacity (mkRateLimiter R C t0) ops1
  refine ⟨h.1, ?_⟩
  have := h.2
  rwa [hcap] at this

/-- Witness for C4 at a concrete instance. -/
theorem C4_tokens_invariant_witness :
    0 ≤ ((mkRateLimiter 3 10 0).run [RLOp.tryAcquire 1 0, RLOp.getAvailable 1]).tokens ∧
      ((mkRateLimiter 3 10 0).run [RLOp.tryAcquire 1 0, RLOp.getAvailable 1]).tokens ≤ (10 : ℚ) :=
  C4_tokens_invariant 3 10 0 (by norm_num) (by norm_num)
    [RLOp.tryAcquire 1 0, RLOp.getAvailable 1] [] (by decide)

/-- Claim C3 counterexample: requesting more tokens than the capacity from
`try_acquire` returns the ordinary boolean refusal `False` with the state
unchanged — it does not raise. -/
theorem C3_counterexample :
    (mkRateLimiter 3 10 0).tryAcquire 11 0 = .ok (false, mkRateLimiter 3 10 0) := rfl

/-- Claim C3 (amended): `try_acquire` raises `ValueError` when `n ≤ 0`;
when `n > capacity` it does not raise but returns `False` without side
effects. -/
theorem C3_try_acquire_validation (rl : RateLimiter) (n : ℤ) (now : ℚ) :
    (n ≤ 0 → rl.tryAcquire n now = .error (.valueError "Tokens must be positive")) ∧
    (0 < n → rl.capacity < n → rl.tryAcquire n now = .ok (false, rl)) := by
  constructor
  · intro h
    simp only [RateLimiter.tryAcquire, if_pos h]
  · intro h0 hcap
    simp only [RateLimiter.tryAcquire, if_neg (not_le.mpr h0), if_pos hcap]

/-- Witness for the amended C3 at concrete inputs. -/
theorem C3_try_acquire_validation_witness :
    ((mkRateLimiter 3 10 0).tryAcquire 0 0 = .error (.valueError "Tokens must be positive")) ∧
    ((mkRateLimiter 3 10 0).tryAcquire 11 0 = .ok (false, mkRateLimiter 3 10 0)) :=
  ⟨(C3_try_acquire_validation (mkRateLimiter 3 10 0) 0 0).1 (by norm_num),
   (C3_try_acquire_validation (mkRateLimiter 3 10 0) 11 0).2 (by norm_num) (by decide)⟩

/-! ## TTL/LRU cache (`src/api_cache.py`) -/

/-- A cache entry with metadata (`CacheEntry` dataclass). -/
structure CacheEntry (α : Type) where
  key : String
  value : α
  timestamp : ℚ
  ttl : ℤ
  access_count : ℕ
  last_accessed : ℚ
deriving DecidableEq, Repr

/-- The `APICache` state: the `OrderedDict` is an association list whose
head is the least-recently-used entry, plus the statistics counters. -/
structure APICache (α : Type) where
  max_size : ℕ
  ttl_seconds : ℤ
  cache : List (String × CacheEntry α)
  hits : ℕ
  misses : ℕ
  evictions : ℕ
deriving DecidableEq, Repr

/-- `APICache.__init__` after its `max_size > 0` / `ttl_seconds > 0`
validation succeeded: an empty ordered map and zeroed counters. -/
def mkAPICache (α : Type) (max_size : ℕ) (ttl_seconds : ℤ) : APICache α :=
  { max_size := max_size, ttl_seconds := ttl_seconds, cache := [],
    hits := 0, misses := 0, evictions := 0 }

/-- `self._cache.get(key)` on the ordered map. -/
def lookup {α : Type} (l : List (String × CacheEntry α)) (k : String) : Option (CacheEntry α) :=
  (l.find? (fun p => p.1 == k)).map (fun p => p.2)

/-- `del self._cache[key]` on the ordered map (the key occurs at most
once in an `OrderedDict`, so filtering it out is exactly deletion). -/
def eraseKey {α : Type} (l : List (String × CacheEntry α)) (k : String) :
    List (String × CacheEntry α) :=
  l.filter (fun p => !(p.1 == k))

/-- `APICache._is_expired`: `age = now - entry.timestamp;
age >= self.ttl_seconds`. -/
def APICache.isExpired {α : Type} (c : APICache α) (now : ℚ) (e : CacheEntry α) : Bool :=
  decide ((c.ttl_seconds : ℚ) ≤ now - e.timestamp)

/-- `APICache.get`: miss on absent key; expired entry is deleted and
counts as a miss; a hit bumps the access metadata, moves the entry to the
most-recently-used end (`move_to_end` = delete + append) and returns the
stored value. -/
def APICache.get {α : Type} (c : APICache α) (key : String) (now : ℚ) :
    Option α × APICache α :=
  match lookup c.cache key with
  | none => (none, { c with misses := c.misses + 1 })
  | some e =>
      if c.isExpired now e then
        (none, { c with cache := eraseKey c.cache key, misses := c.misses + 1 })
      else
        let e' := { e with access_count := e.access_count + 1, last_accessed := now }
        (some e.value,
         { c with cache := eraseKey c.cache key ++ [(key, e')], hits := c.hits + 1 })

/-- The `while len(self._cache) >= self.max_size: self._evict_lru()` loop
of `APICache.set`: repeatedly drop the head (least-recently-used) entry
while the map is at or over capacity.  (`_evict_lru` on an empty map does
nothing, terminating the loop for the validated `max_size ≥ 1`.) -/
def evictWhileFull {α : Type} (m : ℕ) : List (String × CacheEntry α) →
    List (String × CacheEntry α)
  | [] => []
  | x :: xs => if m ≤ (x :: xs).length then evictWhileFull m xs else x :: xs

/-- `APICache.set`: delete an existing entry for the key, evict
least-recently-used entries while at capacity, then insert a fresh entry
(timestamp `now`, zero access count) at the most-recently-used end.  The
evictions counter advances by the number of entries the loop dropped. -/
def APICache.set {α : Type} (c : APICache α) (key : String) (value : α) (now : ℚ) :
    APICache α :=
  let cache1 := if (lookup c.cache key).isSome then eraseKey c.cache key else c.cache
  let cache2 := evictWhileFull c.max_size cache1
  let e : CacheEntry α :=
    { key := key, value := value, timestamp := now, ttl := c.ttl_seconds,
      access_count := 0, last_accessed := now }
  { c with cache := cache2 ++ [(key, e)],
           evictions := c.evictions + (cache1.length - cache2.length) }

/-- `APICache.invalidate`: remove the entry if present. -/
def APICache.invalidate {α : Type} (c : APICache α) (key : String) : APICache α :=
  if (lookup c.cache key).isSome then { c with cache := eraseKey c.cache key } else c

/-- `APICache.clear`. -/
def APICache.clear {α : Type} (c : APICache α) : APICache α :=
  { c with cache := [] }

/-- The cache operations of claim C5, each mutating call tagged with its
clock value. -/
inductive CacheOp (α : Type) where
  | set (k : String) (v : α) (now : ℚ)
  | get (k : String) (now : ℚ)
  | invalidate (k : String)
  | clear
deriving DecidableEq, Repr

/-- State transition of one cache operation. -/
def APICache.step {α : Type} (c : APICache α) : CacheOp α → APICache α
  | .set k v now => c.set k v now
  | .get k now => (c.get k now).2
  | .invalidate k => c.invalidate k
  | .clear => c.clear

/-- Run a sequence of cache operations. -/
def APICache.run {α : Type} (c : APICache α) (ops : List (CacheOp α)) : APICache α :=
  ops.foldl APICache.step c

theorem lookup_nil {α : Type} (k : String) : lookup ([] : List (String × CacheEntry α)) k = none := rfl

theorem lookup_cons {α : Type} (p : String × CacheEntry α) (l : List (String × CacheEntry α))
    (k : String) : lookup (p :: l) k = if p.1 == k then some p.2 else lookup l k := by
  by_cases h : p.1 == k
  · simp [lookup, List.find?, h]
  · simp only [Bool.not_eq_true] at h
    simp [lookup, List.find?, h]

theorem eraseKey_nil {α : Type} (k : String) :
    eraseKey ([] : List (String × CacheEntry α)) k = [] := rfl

theorem eraseKey_cons {α : Type} (p : String × CacheEntry α) (l : List (String × CacheEntry α))
    (k : String) :
    eraseKey (p :: l) k = if p.1 == k then eraseKey l k else p :: eraseKey l k := by
  by_cases h : p.1 == k
  · simp [eraseKey, List.filter, h]
  · simp only [Bool.not_eq_true] at h
    simp [eraseKey, List.filter, h]

theorem length_eraseKey_le {α : Type} (l : List (String × CacheEntry α)) (k : String) :
    (eraseKey l k).length ≤ l.length :=
  List.length_filter_le _ _

theorem length_eraseKey_lt {α : Type} (l : List (String × CacheEntry α)) (k : String)
    (h : (lookup l k).isSome) : (eraseKey l k).length < l.length := by
  induction l with
  | nil => simp [lookup] at h
  | cons p l ih =>
      rw [eraseKey_cons]
      by_cases hp : p.1 == k
      · rw [if_pos hp]
        exact Nat.lt_succ_of_le (length_eraseKey_le l k)
      · rw [if_neg hp]
        rw [lookup_cons, if_neg hp] at h
        simpa using ih h

theorem lookup_eraseKey_self {α : Type} (l : List (String × CacheEntry α)) (k : String) :
    lookup (eraseKey l k) k = none := by
  induction l with
  | nil => rfl
  | cons p l ih =>
      rw [eraseKey_cons]
      by_cases hp : p.1 == k
      · rw [if_pos hp]; exact ih
      · rw [if_neg hp, lookup_cons, if_neg hp]; exact ih

theorem lookup_eraseKey_ne {α : Type} (l : List (String × CacheEntry α)) (k k' : String)
    (h : k' ≠ k) : lookup (eraseKey l k) k' = lookup l k' := by
  induction l with
  | nil => rfl
  | cons p l ih =>
      rw [eraseKey_cons]
      by_cases hp : p.1 == k
      · rw [if_pos hp, lookup_cons]
        have hnk : ¬ p.1 == k' := by
          simp only [beq_iff_eq] at hp ⊢
          intro hk'
          exact h (hk' ▸ hp)
        rw [if_neg hnk]
        exact ih
      · rw [if_neg hp, lookup_cons, lookup_cons]
        by_cases hq : p.1 == k'
        · rw [if_pos hq, if_pos hq]
        · rw [if_neg hq, if_neg hq]; exact ih

theorem lookup_append {α : Type} (l1 l2 : List (String × CacheEntry α)) (k : String) :
    lookup (l1 ++ l2) k = ((lookup l1 k).rec (lookup l2 k) (fun e => some e)) := by
  induction l1 with
  | nil => rfl
  | cons p l ih =>
      rw [List.cons_append, lookup_cons, lookup_cons]
      by_cases hp : p.1 == k
      · rw [if_pos hp, if_pos hp]
      · rw [if_neg hp, if_neg hp]; exact ih

theorem evictWhileFull_length {α : Type} (m : ℕ) (hm : 1 ≤ m)
    (l : List (String × CacheEntry α)) : (evictWhileFull m l).length < m := by
  induction l with
  | nil => exact hm
  | cons x xs ih =>
      simp only [evictWhileFull]
      split
      · exact ih
      · exact lt_of_not_le (by assumption)

theorem evictWhileFull_of_lt {α : Type} (m : ℕ) (l : List (String × CacheEntry α))
    (h : l.length < m) : evictWhileFull m l = l := by
  cases l with
  | nil => rfl
  | cons x xs =>
      simp only [evictWhileFull]
      rw [if_neg (not_le.mpr h)]

theorem get_of_none {α : Type} (c : APICache α) (k : String) (now : ℚ)
    (h : lookup c.cache k = none) :
    c.get k now = (none, { c with misses := c.misses + 1 }) := by
  simp [APICache.get, h]

theorem get_of_expired {α : Type} (c : APICache α) (k : String) (now : ℚ) (e : CacheEntry α)
    (h : lookup c.cache k = some e) (hx : c.isExpired now e = true) :
    c.get k now = (none, { c with cache := eraseKey c.cache k, misses := c.misses + 1 }) := by
  simp [APICache.get, h, hx]

theorem get_of_live {α : Type} (c : APICache α) (k : String) (now : ℚ) (e : CacheEntry α)
    (h : lookup c.cache k = some e) (hx : c.isExpired now e = false) :
    c.get k now = (some e.value,
      { c with
        cache := eraseKey c.cache k ++ [(k, { e with access_count := e.access_count + 1, last_accessed := now })]
        hits := c.hits + 1 }) := by
  simp [APICache.get, h, hx]

theorem step_max_size {α : Type} (c : APICache α) (op : CacheOp α) :
    (c.step op).max_size = c.max_size := by
  cases op with
  | set k v now => rfl
  | get k now =>
      simp only [APICache.step]
      rcases h : lookup c.cache k with _ | e
      · rw [get_of_none c k now h]
      · rcases hx : c.isExpired now e with _ | _
        · rw [get_of_live c k now e h hx]
        · rw [get_of_expired c k now e h hx]
  | invalidate k =>
      simp only [APICache.step, APICache.invalidate]
      split <;> rfl
  | clear => rfl

theorem step_size {α : Type} (c : APICache α) (op : CacheOp α) (hM : 1 ≤ c.max_size)
    (h : c.cache.length ≤ c.max_size) : (c.step op).cache.length ≤ c.max_size := by
  cases op with
  | set k v now =>
      simp only [APICache.step, APICache.set, List.length_append, List.length_cons,
        List.length_nil]
      have := evictWhileFull_length c.max_size hM
        (if (lookup c.cache k).isSome then eraseKey c.cache k else c.cache)
      omega
  | get k now =>
      simp only [APICache.step]
      rcases hk : lookup c.cache k with _ | e
      · rw [get_of_none c k now hk]
        exact h
      · rcases hx : c.isExpired now e with _ | _
        · rw [get_of_live c k now e hk hx]
          simp only [List.length_append, List.length_cons, List.length_nil]
          have := length_eraseKey_lt c.cache k (by rw [hk]; rfl)
          omega
        · rw [get_of_expired c k now e hk hx]
          exact le_trans (length_eraseKey_le c.cache k) h
  | invalidate k =>
      simp only [APICache.step, APICache.invalidate]
      split
      · exact le_trans (length_eraseKey_le c.cache k) h
      · exact h
  | clear => simp [APICache.step, APICache.clear]

theorem run_size {α : Type} (c : APICache α) (ops : List (CacheOp α)) (hM : 1 ≤ c.max_size)
    (h : c.cache.length ≤ c.max_size) : (c.run ops).cache.length ≤ c.max_size := by
  induction ops generalizing c with
  | nil => exact h
  | cons op ops ih =>
      have h1 := step_size c op hM h
      have h2 := step_max_size c op
      have h3 := ih (c.step op) (by rw [h2]; exact hM) (by rw [h2]; exact h1)
      rw [h2] at h3
      exact h3

theorem run_max_size {α : Type} (c : APICache α) (ops : List (CacheOp α)) :
    (c.run ops).max_size = c.max_size := by
  induction ops generalizing c with
  | nil => rfl
  | cons op ops ih => exact (ih (c.step op)).trans (step_max_size c op)

/-- Claim C5: starting from a cache constructed with `max_size = M > 0`,
any sequence of `set` / `get` / `invalidate` / `clear` operations leaves
at most `M` stored entries (in particular a single `set` on a full cache
evicts LRU entries until the insertion fits and never overshoots). -/
theorem C5_cache_size_bound (α : Type) (M : ℕ) (ttl : ℤ) (hM : 0 < M)
    (ops : List (CacheOp α)) : ((mkAPICache α M ttl).run ops).cache.length ≤ M :=
  run_size (mkAPICache α M ttl) ops hM (Nat.zero_le _)

/-- Witness for C5 at a concrete instance (two insertions into a cache of
capacity one). -/
theorem C5_cache_size_bound_witness :
    ((mkAPICache ℤ 1 60).run [CacheOp.set "a" 1 0, CacheOp.set "b" 2 0]).cache.length ≤ 1 :=
  C5_cache_size_bound ℤ 1 60 (by norm_num) [CacheOp.set "a" 1 0, CacheOp.set "b" 2 0]

theorem lookup_evictWhileFull_none {α : Type} (m : ℕ) (l : List (String × CacheEntry α))
    (k : String) (h : lookup l k = none) : lookup (evictWhileFull m l) k = none := by
  induction l with
  | nil => rfl
  | cons p l ih =>
      rw [lookup_cons] at h
      by_cases hp : p.1 == k
      · rw [if_pos hp] at h; exact absurd h (by simp)
      · rw [if_neg hp] at h
        simp only [evictWhileFull]
        split
        · exact ih h
        · rw [lookup_cons, if_neg hp]; exact h

theorem lookup_of_isSome_false {α : Type} (l : List (String × CacheEntry α)) (k : String)
    (h : (lookup l k).isSome = false) : lookup l k = none := by
  rcases hl : lookup l k with _ | e
  · rfl
  · rw [hl] at h; simp at h

/-- The entry `set` writes for its key. -/
def freshEntry {α : Type} (c : APICache α) (k : String) (v : α) (now : ℚ) : CacheEntry α :=
  { key := k, value := v, timestamp := now, ttl := c.ttl_seconds,
    access_count := 0, last_accessed := now }

theorem set_lookup_self {α : Type} (c : APICache α) (k : String) (v : α) (now : ℚ) :
    lookup (c.set k v now).cache k = some (freshEntry c k v now) := by
  have h1 : lookup (if (lookup c.cache k).isSome then eraseKey c.cache k else c.cache) k
      = none := by
    split
    · exact lookup_eraseKey_self c.cache k
    · exact lookup_of_isSome_false c.cache k (by
        rcases h : (lookup c.cache k).isSome with _ | _
        · rfl
        · exact absurd h (by assumption))
  have h2 := lookup_evictWhileFull_none c.max_size _ k h1
  simp only [APICache.set, freshEntry]
  rw [lookup_append, h2, lookup_cons]
  simp

theorem set_ttl_seconds {α : Type} (c : APICache α) (k : String) (v : α) (now : ℚ) :
    (c.set k v now).ttl_seconds = c.ttl_seconds := rfl

theorem get_ttl_seconds {α : Type} (c : APICache α) (k : String) (now : ℚ) :
    ((c.get k now).2).ttl_seconds = c.ttl_seconds := by
  rcases h : lookup c.cache k with _ | e
  · rw [get_of_none c k now h]
  · rcases hx : c.isExpired now e with _ | _
    · rw [get_of_live c k now e h hx]
    · rw [get_of_expired c k now e h hx]

/-- A sequence of bare `get` calls, each tagged with its clock value. -/
def APICache.runGets {α : Type} (c : APICache α) (gs : List (String × ℚ)) : APICache α :=
  gs.foldl (fun c g => (c.get g.1 g.2).2) c

theorem runGets_ttl_seconds {α : Type} (c : APICache α) (gs : List (String × ℚ)) :
    (c.runGets gs).ttl_seconds = c.ttl_seconds := by
  induction gs generalizing c with
  | nil => rfl
  | cons g gs ih => exact (ih ((c.get g.1 g.2).2)).trans (get_ttl_seconds c g.1 g.2)

theorem get_none_evolution {α : Type} (c : APICache α) (k k' : String) (t' : ℚ)
    (hk : lookup c.cache k = none) : lookup ((c.get k' t').2).cache k = none := by
  rcases h2 : lookup c.cache k' with _ | e2
  · rw [get_of_none c k' t' h2]; exact hk
  · have hne : ¬ k == k' := by
      intro hb
      rw [beq_iff_eq] at hb
      rw [hb, h2] at hk
      exact Option.noConfusion hk
    have hne' : k ≠ k' := by
      intro hb; exact hne (by rw [hb]; exact beq_self_eq_true k')
    rcases hx : c.isExpired t' e2 with _ | _
    · rw [get_of_live c k' t' e2 h2 hx]
      simp only
      rw [lookup_append, lookup_eraseKey_ne c.cache k' k hne', hk, lookup_cons]
      rw [if_neg (by simpa using fun hb => hne' hb.symm)]
      rfl
    · rw [get_of_expired c k' t' e2 h2 hx]
      simp only
      rw [lookup_eraseKey_ne c.cache k' k hne']
      exact hk

theorem get_entry_evolution {α : Type} (c : APICache α) (k k' : String) (t' : ℚ)
    (e : CacheEntry α) (hk : lookup c.cache k = some e) :
    (lookup ((c.get k' t').2).cache k = some e) ∨
    (k' = k ∧ c.isExpired t' e = true ∧ lookup ((c.get k' t').2).cache k = none) ∨
    (k' = k ∧ c.isExpired t' e = false ∧
      lookup ((c.get k' t').2).cache k =
        some { e with access_count := e.access_count + 1, last_accessed := t' }) := by
  by_cases hkk : k' = k
  · subst hkk
    rcases hx : c.isExpired t' e with _ | _
    · right; right
      refine ⟨rfl, rfl, ?_⟩
      rw [get_of_live c k' t' e hk hx]
      simp only
      rw [lookup_append, lookup_eraseKey_self, lookup_cons]
      simp
    · right; left
      refine ⟨rfl, rfl, ?_⟩
      rw [get_of_expired c k' t' e hk hx]
      simp only
      exact lookup_eraseKey_self c.cache k'
  · left
    have hne : k ≠ k' := fun hb => hkk hb.symm
    rcases h2 : lookup c.cache k' with _ | e2
    · rw [get_of_none c k' t' h2]; exact hk
    · rcases hx : c.isExpired t' e2 with _ | _
      · rw [get_of_live c k' t' e2 h2 hx]
        simp only
        rw [lookup_append, lookup_eraseKey_ne c.cache k' k hne, hk]
      · rw [get_of_expired c k' t' e2 h2 hx]
        simp only
        rw [lookup_eraseKey_ne c.cache k' k hne]
        exact hk

theorem runGets_entryOk {α : Type} (c : APICache α) (k : String) (v : α) (t0 : ℚ)
    (gs : List (String × ℚ))
    (h : lookup c.cache k = none ∨
      ∃ e, lookup c.cache k = some e ∧ e.timestamp = t0 ∧ e.value = v) :
    lookup (c.runGets gs).cache k = none ∨
      ∃ e, lookup (c.runGets gs).cache k = some e ∧ e.timestamp = t0 ∧ e.value = v := by
  induction gs generalizing c with
  | nil => exact h
  | cons g gs ih =>
      apply ih
      rcases h with hnone | ⟨e, he, hts, hv⟩
      · exact Or.inl (get_none_evolution c k g.1 g.2 hnone)
      · rcases get_entry_evolution c k g.1 g.2 e he with h1 | ⟨_, _, h2⟩ | ⟨_, _, h3⟩
        · exact Or.inr ⟨e, h1, hts, hv⟩
        · exact Or.inl h2
        · exact Or.inr ⟨_, h3, hts, hv⟩

theorem runGets_live {α : Type} (c : APICache α) (k : String) (v : α) (t0 t : ℚ)
    (gs : List (String × ℚ)) (hle : gs.all (fun g => decide (g.2 ≤ t)) = true)
    (hlt : t - t0 < (c.ttl_seconds : ℚ)) (e : CacheEntry α)
    (hk : lookup c.cache k = some e) (hts : e.timestamp = t0) (hv : e.value = v) :
    ∃ e', lookup (c.runGets gs).cache k = some e' ∧ e'.timestamp = t0 ∧ e'.value = v := by
  induction gs generalizing c e with
  | nil => exact ⟨e, hk, hts, hv⟩
  | cons g gs ih =>
      rw [List.all_cons, Bool.and_eq_true, decide_eq_true_eq] at hle
      have hlive : c.isExpired g.2 e = false := by
        simp only [APICache.isExpired, hts, decide_eq_false_iff_not, not_le]
        calc g.2 - t0 ≤ t - t0 := by linarith [hle.1]
          _ < (c.ttl_seconds : ℚ) := hlt
      have httl : ((c.get g.1 g.2).2).ttl_seconds = c.ttl_seconds := get_ttl_seconds c g.1 g.2
      rcases get_entry_evolution c k g.1 g.2 e hk with h1 | ⟨hk1, hx, _⟩ | ⟨hk1, _, h3⟩
      · exact ih ((c.get g.1 g.2).2) hle.2 (by rw [httl]; exact hlt) e h1 hts hv
      · subst hk1; rw [hlive] at hx; exact absurd hx (by simp)
      · exact ih ((c.get g.1 g.2).2) hle.2 (by rw [httl]; exact hlt) _ h3 hts hv

/-- Claim C6: after `set k v` at time `t0`, possibly followed by further
`get` calls at times `≤ t`, a `get k` at time `t` returns the stored
value when `t - t0 < ttl` and returns absent (removing the entry) when
`t - t0 ≥ ttl`; expiry is measured from the insertion time only and is
not extended by the intervening hits. -/
theorem C6_ttl_semantics (α : Type) (c : APICache α) (k : String) (v : α) (t0 t : ℚ)
    (gets : List (String × ℚ)) (hle : gets.all (fun g => decide (g.2 ≤ t)) = true) :
    (t - t0 < (c.ttl_seconds : ℚ) →
      ((((c.set k v t0).runGets gets).get k t).1 = some v)) ∧
    ((c.ttl_seconds : ℚ) ≤ t - t0 →
      (((((c.set k v t0).runGets gets).get k t).1 = none) ∧
       lookup ((((c.set k v t0).runGets gets).get k t).2).cache k = none)) := by
  have hself := set_lookup_self c k v t0
  have httl2 : ((c.set k v t0).runGets gets).ttl_seconds = c.ttl_seconds :=
    (runGets_ttl_seconds (c.set k v t0) gets).trans (set_ttl_seconds c k v t0)
  constructor
  · intro hlt
    obtain ⟨e', he', hts, hv⟩ := runGets_live (c.set k v t0) k v t0 t gets hle
      (by rw [set_ttl_seconds]; exact hlt) (freshEntry c k v t0) hself rfl rfl
    have hlive : ((c.set k v t0).runGets gets).isExpired t e' = false := by
      simp only [APICache.isExpired, hts, httl2, decide_eq_false_iff_not, not_le]
      linarith
    rw [get_of_live _ k t e' he' hlive, ← hv]
  · intro hge
    rcases runGets_entryOk (c.set k v t0) k v t0 gets
        (Or.inr ⟨freshEntry c k v t0, hself, rfl, rfl⟩) with hnone | ⟨e', he', hts, _⟩
    · rw [get_of_none _ k t hnone]
      exact ⟨rfl, hnone⟩
    · have hx : ((c.set k v t0).runGets gets).isExpired t e' = true := by
        simp only [APICache.isExpired, hts, httl2, decide_eq_true_eq]
        linarith
      rw [get_of_expired _ k t e' he' hx]
      exact ⟨rfl, lookup_eraseKey_self _ k⟩

/-- Witness for C6: a value set at time 0 with a 60-second TTL is
returned by a hit at time 30 (after an intervening hit) and is absent at
time 90. -/
theorem C6_ttl_semantics_witness :
    ((((mkAPICache ℤ 10 60).set "k" 5 0).runGets [("k", 20)]).get "k" 30).1 = some 5 ∧
    ((((mkAPICache ℤ 10 60).set "k" 5 0).runGets [("k", 20)]).get "k" 90).1 = none :=
  ⟨(C6_ttl_semantics ℤ (mkAPICache ℤ 10 60) "k" 5 0 30 [("k", 20)] (by decide)).1
      (by decide),
   ((C6_ttl_semantics ℤ (mkAPICache ℤ 10 60) "k" 5 0 90 [("k", 20)] (by decide)).2
      (by decide)).1⟩

/-- Claim C10: `set` on an already-present key replaces that entry
without evicting anyone: every other key present before the call is
still present after it, and the eviction counter does not move. -/
theorem C10_replace_no_evict (α : Type) (c : APICache α) (k : String) (v : α) (now : ℚ)
    (hsize : c.cache.length ≤ c.max_size) (hk : (lookup c.cache k).isSome = true)
    (k' : String) (hne : k' ≠ k) (hk' : (lookup c.cache k').isSome = true) :
    (lookup (c.set k v now).cache k').isSome = true ∧
    (c.set k v now).evictions = c.evictions := by
  have hlt : (eraseKey c.cache k).length < c.max_size :=
    lt_of_lt_of_le (length_eraseKey_lt c.cache k hk) hsize
  have hcache1 : (if (lookup c.cache k).isSome then eraseKey c.cache k else c.cache)
      = eraseKey c.cache k := if_pos (by rw [hk])
  have hev : evictWhileFull c.max_size (eraseKey c.cache k) = eraseKey c.cache k :=
    evictWhileFull_of_lt c.max_size _ hlt
  constructor
  · simp only [APICache.set, hcache1, hev]
    rw [lookup_append, lookup_eraseKey_ne c.cache k k' hne]
    rcases h2 : lookup c.cache k' with _ | e2
    · rw [h2] at hk'; exact absurd hk' (by simp)
    · rfl
  · simp only [APICache.set, hcache1, hev, Nat.sub_self, Nat.add_zero]

/-- Witness for C10: replacing `"b"` in a full two-entry cache keeps
`"a"` and evicts nothing. -/
theorem C10_replace_no_evict_witness :
    (lookup ((((mkAPICache ℤ 2 60).set "a" 1 0).set "b" 2 0).set "b" 3 1).cache
        "a").isSome = true ∧
    ((((mkAPICache ℤ 2 60).set "a" 1 0).set "b" 2 0).set "b" 3 1).evictions =
      (((mkAPICache ℤ 2 60).set "a" 1 0).set "b" 2 0).evictions :=
  C10_replace_no_evict ℤ (((mkAPICache ℤ 2 60).set "a" 1 0).set "b" 2 0) "b" 3 1
    (by decide) (by decide) "a" (by decide) (by decide)

/-- Claim C9: on `APICache(max_size=2, ttl_seconds=60)`, after
`set("a",1); set("b",2); set("c",3)` the key `"a"` has been evicted as
least-recently-used while `"b"` and `"c"` survive with their values, the
three gets performed in sequence. -/
theorem C9_lru_scenario :
    (((((mkAPICache ℤ 2 60).set "a" 1 0).set "b" 2 0).set "c" 3 0).get "a" 0).1 = none ∧
    (((((((mkAPICache ℤ 2 60).set "a" 1 0).set "b" 2 0).set "c" 3 0).get "a" 0).2.get
        "b" 0).1 = some 2) ∧
    ((((((((mkAPICache ℤ 2 60).set "a" 1 0).set "b" 2 0).set "c" 3 0).get "a" 0).2.get
        "b" 0).2.get "c" 0).1 = some 3) := by
  decide

/-! ## Exponential-backoff retrier (`src/retry_logic.py`)

`execute_with_retry` (and the identical loop body of the
`retry_with_backoff` decorator) is embedded as a function of the attempt
outcomes: `f i` is the result of the `i`-th invocation of the wrapped
zero-argument function (`.ok` a value or `.error` an exception).  The
`retry_on` tuple of exception classes becomes a predicate on `PyError`.
The embedding returns the final outcome together with the list of backoff
delays slept and the number of attempts made. -/

/-- The observable outcome of one `execute_with_retry` run. -/
structure RetryOutcome (α : Type) where
  result : Except PyError α
  delays : List ℚ
  attempts : ℕ

/-- The `for attempt in range(max_retries + 1)` loop, `gas` being the
number of retries still allowed (`gas = max_retries - attempt`, so the
`attempt >= max_retries` check is `gas = 0`).  A failure not matching the
`retry_on` classes falls through the `except` clause and propagates at
once; a matching failure with no gas left re-raises; otherwise the loop
sleeps `min(initial_delay * exponential_base ** attempt, max_delay)` and
moves to the next attempt. -/
def executeAux {α : Type} (f : ℕ → Except PyError α)
    (initial_delay max_delay exponential_base : ℚ) (retry_on : PyError → Bool) :
    ℕ → ℕ → RetryOutcome α
  | gas, attempt =>
    match f attempt with
    | .ok v => ⟨.ok v, [], 1⟩
    | .error e =>
      if retry_on e then
        match gas with
        | 0 => ⟨.error e, [], 1⟩
        | gas' + 1 =>
          let delay := min (initial_delay * exponential_base ^ attempt) max_delay
          let rest := executeAux f initial_delay max_delay exponential_base retry_on gas' (attempt + 1)
          ⟨rest.result, delay :: rest.delays, rest.attempts + 1⟩
      else ⟨.error e, [], 1⟩

/-- `execute_with_retry(func, max_retries, initial_delay, max_delay,
exponential_base, retry_on)`. -/
def execute_with_retry {α : Type} (f : ℕ → Except PyError α) (max_retries : ℕ)
    (initial_delay max_delay exponential_base : ℚ) (retry_on : PyError → Bool) :
    RetryOutcome α :=
  executeAux f initial_delay max_delay exponential_base retry_on max_retries 0

/-- The `retry_on=(RateLimitError, NetworkError, Exception)` tuple that
`get_historical_data` passes to `retry_with_backoff`: an exception
matches when it is an instance of any listed class. -/
def guardedRetryOn (e : PyError) : Bool :=
  isRateLimitError e || isNetworkError e || isException e

theorem guardedRetryOn_true (e : PyError) : guardedRetryOn e = true := by
  simp [guardedRetryOn, isException]

theorem executeAux_ok {α : Type} (f : ℕ → Except PyError α) (i m b : ℚ)
    (r : PyError → Bool) (gas a : ℕ) (v : α) (hf : f a = .ok v) :
    executeAux f i m b r gas a = ⟨.ok v, [], 1⟩ := by
  unfold executeAux
  rw [hf]

theorem executeAux_fatal {α : Type} (f : ℕ → Except PyError α) (i m b : ℚ)
    (r : PyError → Bool) (gas a : ℕ) (e : PyError) (hf : f a = .error e)
    (hr : r e = false) : executeAux f i m b r gas a = ⟨.error e, [], 1⟩ := by
  unfold executeAux
  rw [hf]
  simp [hr]

theorem executeAux_last {α : Type} (f : ℕ → Except PyError α) (i m b : ℚ)
    (r : PyError → Bool) (a : ℕ) (e : PyError) (hf : f a = .error e)
    (hr : r e = true) : executeAux f i m b r 0 a = ⟨.error e, [], 1⟩ := by
  unfold executeAux
  rw [hf]
  simp [hr]

theorem executeAux_retry {α : Type} (f : ℕ → Except PyError α) (i m b : ℚ)
    (r : PyError → Bool) (g a : ℕ) (e : PyError) (hf : f a = .error e)
    (hr : r e = true) :
    executeAux f i m b r (g + 1) a =
      ⟨(executeAux f i m b r g (a + 1)).result,
       min (i * b ^ a) m :: (executeAux f i m b r g (a + 1)).delays,
       (executeAux f i m b r g (a + 1)).attempts + 1⟩ := by
  conv_lhs => unfold executeAux
  rw [hf]
  simp [hr]

theorem range_map_shift (φ : ℕ → ℚ) (a g : ℕ) :
    φ a :: (List.range g).map (fun j => φ (a + 1 + j)) =
      (List.range (g + 1)).map (fun j => φ (a + j)) := by
  rw [List.range_succ_eq_map, List.map_cons, List.map_map]
  refine congrArg₂ _ (by rw [Nat.add_zero]) ?_
  apply List.map_congr_left
  intro j _
  simp only [Function.comp_apply]
  exact congrArg φ (by omega)

theorem executeAux_perm_fail {α : Type} (f : ℕ → Except PyError α) (i m b : ℚ)
    (r : PyError → Bool) (hf : ∀ j, ∃ e, f j = .error e ∧ r e = true) :
    ∀ gas a, executeAux f i m b r gas a =
      ⟨f (a + gas), (List.range gas).map (fun j => min (i * b ^ (a + j)) m), gas + 1⟩ := by
  intro gas
  induction gas with
  | zero =>
      intro a
      obtain ⟨e, he, hr⟩ := hf a
      rw [executeAux_last f i m b r a e he hr, Nat.add_zero, he]
      simp
  | succ g ih =>
      intro a
      obtain ⟨e, he, hr⟩ := hf a
      rw [executeAux_retry f i m b r g a e he hr, ih (a + 1)]
      refine congrArg₂ (fun x y => RetryOutcome.mk x y (g + 1 + 1)) ?_ ?_
      · exact congrArg f (by omega)
      · exact range_map_shift (fun j => min (i * b ^ j) m) a g

theorem executeAux_succeeds {α : Type} (f : ℕ → Except PyError α) (i m b : ℚ)
    (r : PyError → Bool) :
    ∀ (k : ℕ) (gas a : ℕ) (v : α), k ≤ gas → f (a + k) = .ok v →
      (∀ j, j < k → ∃ e, f (a + j) = .error e ∧ r e = true) →
      executeAux f i m b r gas a =
        ⟨.ok v, (List.range k).map (fun j => min (i * b ^ (a + j)) m), k + 1⟩ := by
  intro k
  induction k with
  | zero =>
      intro gas a v _ hok _
      rw [Nat.add_zero] at hok
      rw [executeAux_ok f i m b r gas a v hok]
      simp
  | succ j ih =>
      intro gas a v hk hok hfail
      obtain ⟨e, he, hr⟩ := hfail 0 (Nat.succ_pos j)
      rw [Nat.add_zero] at he
      cases gas with
      | zero => exact absurd hk (by omega)
      | succ g =>
          rw [executeAux_retry f i m b r g a e he hr,
            ih g (a + 1) v (by omega) (by rw [← hok]; exact congrArg f (by omega))
              (fun j' hj' => by
                obtain ⟨e', he', hr'⟩ := hfail (j' + 1) (by omega)
                exact ⟨e', by rw [← he']; exact congrArg f (by omega), hr'⟩)]
          simp only
          rw [range_map_shift (fun x => min (i * b ^ x) m) a j]

theorem executeAux_delays_shape {α : Type} (f : ℕ → Except PyError α) (i m b : ℚ)
    (r : PyError → Bool) :
    ∀ gas a, ∃ n, (executeAux f i m b r gas a).delays =
      (List.range n).map (fun j => min (i * b ^ (a + j)) m) := by
  intro gas
  induction gas with
  | zero =>
      intro a
      rcases hf : f a with e | v
      · rcases hr : r e with _ | _
        · rw [executeAux_fatal f i m b r 0 a e hf hr]; exact ⟨0, by simp⟩
        · rw [executeAux_last f i m b r a e hf hr]; exact ⟨0, by simp⟩
      · rw [executeAux_ok f i m b r 0 a v hf]; exact ⟨0, by simp⟩
  | succ g ih =>
      intro a
      rcases hf : f a with e | v
      · rcases hr : r e with _ | _
        · rw [executeAux_fatal f i m b r (g + 1) a e hf hr]; exact ⟨0, by simp⟩
        · obtain ⟨n, hn⟩ := ih (a + 1)
          rw [executeAux_retry f i m b r g a e hf hr]
          refine ⟨n + 1, ?_⟩
          simp only
          rw [hn]
          exact range_map_shift (fun x => min (i * b ^ x) m) a n
      · rw [executeAux_ok f i m b r (g + 1) a v hf]; exact ⟨0, by simp⟩

theorem formula_bound (i m b : ℚ) (a n : ℕ) :
    ∀ d ∈ (List.range n).map (fun j => min (i * b ^ (a + j)) m), d ≤ m := by
  intro d hd
  simp only [List.mem_map] at hd
  obtain ⟨j, _, rfl⟩ := hd
  exact min_le_right _ _

theorem formula_chain (i m b : ℚ) (hi : 0 ≤ i) (hb : 1 ≤ b) (a n : ℕ) :
    List.Chain' (fun x y => x ≤ y)
      ((List.range n).map (fun j => min (i * b ^ (a + j)) m)) := by
  rw [List.chain'_map]
  cases n with
  | zero => simp
  | succ n =>
      rw [List.chain'_range_succ]
      intro j hj
      refine min_le_min ?_ le_rfl
      refine mul_le_mul_of_nonneg_left ?_ hi
      exact pow_le_pow_right₀ hb (by omega)

/-- Claim C7: if every attempt fails with a retryable error the retrier
makes exactly `max_retries + 1` attempts, re-raises the last error, and
sleeps `min(initial_delay * exponential_base^i, max_delay)` before
attempt `i+1`; the delay sequence is non-decreasing (for the
configurations used: nonnegative initial delay, base at least one) with
every delay at most `max_delay`; and success at attempt `k ≤ max_retries`
makes exactly `k + 1` attempts with exactly `k` delays. -/
theorem C7_retry_schedule (α : Type) (f : ℕ → Except PyError α) (max_retries : ℕ)
    (initial_delay max_delay exponential_base : ℚ) (retry_on : PyError → Bool) :
    ((∀ j, ∃ e, f j = .error e ∧ retry_on e = true) →
      (execute_with_retry f max_retries initial_delay max_delay exponential_base
          retry_on).attempts = max_retries + 1 ∧
      (execute_with_retry f max_retries initial_delay max_delay exponential_base
          retry_on).result = f max_retries ∧
      (execute_with_retry f max_retries initial_delay max_delay exponential_base
          retry_on).delays = (List.range max_retries).map
            (fun j => min (initial_delay * exponential_base ^ j) max_delay)) ∧
    (0 ≤ initial_delay → 1 ≤ exponential_base →
      List.Chain' (fun x y => x ≤ y)
        (execute_with_retry f max_retries initial_delay max_delay exponential_base
          retry_on).delays ∧
      ∀ d ∈ (execute_with_retry f max_retries initial_delay max_delay exponential_base
          retry_on).delays, d ≤ max_delay) ∧
    (∀ (k : ℕ) (v : α), k ≤ max_retries → f k = .ok v →
      (∀ j, j < k → ∃ e, f j = .error e ∧ retry_on e = true) →
      (execute_with_retry f max_retries initial_delay max_delay exponential_base
          retry_on).attempts = k + 1 ∧
      (execute_with_retry f max_retries initial_delay max_delay exponential_base
          retry_on).result = .ok v ∧
      (execute_with_retry f max_retries initial_delay max_delay exponential_base
          retry_on).delays.length = k) := by
  refine ⟨?_, ?_, ?_⟩
  · intro hf
    have h := executeAux_perm_fail f initial_delay max_delay exponential_base retry_on hf
      max_retries 0
    rw [execute_with_retry, h]
    refine ⟨rfl, congrArg f (Nat.zero_add _), ?_⟩
    exact List.map_congr_left (fun j _ => by rw [Nat.zero_add])
  · intro hi hb
    obtain ⟨n, hn⟩ := executeAux_delays_shape f initial_delay max_delay exponential_base
      retry_on max_retries 0
    rw [execute_with_retry, hn]
    exact ⟨formula_chain _ _ _ hi hb 0 n, formula_bound _ _ _ 0 n⟩
  · intro k v hk hok hfail
    have h := executeAux_succeeds f initial_delay max_delay exponential_base retry_on
      k max_retries 0 v hk (by rw [Nat.zero_add]; exact hok)
      (fun j hj => by rw [Nat.zero_add]; exact hfail j hj)
    rw [execute_with_retry, h]
    exact ⟨rfl, rfl, by simp⟩

/-- The always-failing fetch of the spec's concrete retry scenario. -/
def failNet : ℕ → Except PyError Unit := fun _ => .error (.networkError "boom")

/-- Witness for C7 at the spec's concrete scenario: `max_retries = 2`,
`initial_delay = 1`, `exponential_base = 2`, `max_delay = 10` on an
always-failing function yields three attempts, delays `[1, 2]`, and
re-raises the error. -/
theorem C7_retry_schedule_witness :
    (execute_with_retry failNet 2 1 10 2 guardedRetryOn).attempts = 3 ∧
    (execute_with_retry failNet 2 1 10 2 guardedRetryOn).result =
      .error (.networkError "boom") ∧
    (execute_with_retry failNet 2 1 10 2 guardedRetryOn).delays = [1, 2] := by
  have h := (C7_retry_schedule Unit failNet 2 1 10 2 guardedRetryOn).1
    (fun j => ⟨.networkError "boom", rfl, rfl⟩)
  exact ⟨h.1, h.2.1, h.2.2.trans (by decide)⟩

/-- Claim C2 counterexample: inside the guarded call the configured
`retry_on` tuple is `(RateLimitError, NetworkError, Exception)`, so an
error that is neither a rate-limit nor a network error (here
`otherError 0`) is *retried with backoff* — with `max_retries = 3` it is
attempted four times with delays `[1, 2, 4]` — rather than propagated on
its first occurrence with no retry. -/
theorem C2_counterexample :
    isRateLimitError (.otherError 0) = false ∧
    isNetworkError (.otherError 0) = false ∧
    (execute_with_retry (fun _ => .error (.otherError 0) : ℕ → Except PyError Unit)
        3 1 10 2 guardedRetryOn).attempts = 4 ∧
    (execute_with_retry (fun _ => .error (.otherError 0) : ℕ → Except PyError Unit)
        3 1 10 2 guardedRetryOn).delays = [1, 2, 4] := by
  refine ⟨rfl, rfl, ?_, ?_⟩ <;> · decide

/-- Claim C2 (amended): the retry mechanism itself does propagate an
error whose kind is not in `retry_on` on its first occurrence, with no
retry and no delay; but the guarded call configures `retry_on` to
include `Exception`, which matches every error, so in
`get_historical_data` no failure is treated as non-retryable. -/
theorem C2_retry_configuration (α : Type) (f : ℕ → Except PyError α) (max_retries : ℕ)
    (initial_delay max_delay exponential_base : ℚ) (retry_on : PyError → Bool)
    (e : PyError) :
    (f 0 = .error e → retry_on e = false →
      execute_with_retry f max_retries initial_delay max_delay exponential_base retry_on
        = ⟨.error e, [], 1⟩) ∧
    guardedRetryOn e = true := by
  constructor
  · intro hf hr
    rw [execute_with_retry]
    exact executeAux_fatal f initial_delay max_delay exponential_base retry_on
      max_retries 0 e hf hr
  · exact guardedRetryOn_true e

/-- Witness for the amended C2: a `ValueError` is not matched by the
spec's `(RateLimitError, NetworkError)` set and propagates at once, yet
the guarded call's configured set does match it. -/
theorem C2_retry_configuration_witness :
    (execute_with_retry (fun _ => .error (.valueError "bad") : ℕ → Except PyError Unit)
        5 1 32 2 (fun e => isRateLimitError e || isNetworkError e)
      = ⟨.error (.valueError "bad"), [], 1⟩) ∧
    guardedRetryOn (.valueError "bad") = true :=
  ⟨(C2_retry_configuration Unit (fun _ => .error (.valueError "bad")) 5 1 32 2
      (fun e => isRateLimitError e || isNetworkError e) (.valueError "bad")).1 rfl rfl,
   (C2_retry_configuration Unit (fun _ => .error (.valueError "bad")) 5 1 32 2
      (fun e => isRateLimitError e || isNetworkError e) (.valueError "bad")).2⟩

/-! ## Guarded fetch (`src/angelone_client.py`, `get_historical_data`)

The method is embedded as a function of its decision inputs: the
authentication state (`authenticated`, and `authOk`, the outcome of the
lazy `authenticate()` call), the cache with the precomputed cache key,
whether `rate_limiter.acquire(tokens=1, timeout=10.0)` admits within its
timeout, and the per-attempt outcome of the retry-wrapped
`_fetch_data` (`.ok (some d)` — a response carrying a `data` field,
`.ok none` — a response without one, `.error e` — a raised exception).
All `except` clauses of the method convert failures to a `None` return,
which the embedding makes explicit. -/
def get_historical_data {α : Type} (authenticated authOk : Bool) (cache : APICache α)
    (cache_key : String) (now : ℚ) (limiterAdmits : Bool)
    (fetch : ℕ → Except PyError (Option α)) : Option α × APICache α :=
  if ¬authenticated ∧ ¬authOk then (none, cache)
  else
    match cache.get cache_key now with
    | (some v, cache') => (some v, cache')
    | (none, cache') =>
      if ¬limiterAdmits then (none, cache')
      else
        match (execute_with_retry fetch 3 1 10 2 guardedRetryOn).result with
        | .ok (some d) => (some d, cache'.set cache_key d now)
        | .ok none => (none, cache')
        | .error _ => (none, cache')

/-- Claim C1 counterexample: a limiter-timeout failure and an
exhausted-retries failure both return the bare `None` that the plain
data-less response also returns — the failure is swallowed into a silent
non-result, not surfaced as a distinguishable error. -/
theorem C1_counterexample :
    (get_historical_data true true (mkAPICache ℤ 1000 60) "k" 0 false
        (fun _ => .ok (some 7))).1 = none ∧
    (get_historical_data true true (mkAPICache ℤ 1000 60) "k" 0 true
        (fun _ => .error (.networkError "down"))).1 = none ∧
    (get_historical_data true true (mkAPICache ℤ 1000 60) "k" 0 true
        (fun _ => .ok none)).1 = none := by
  refine ⟨rfl, ?_, rfl⟩
  decide

/-- Claim C1 (amended): every failure path of `get_historical_data` —
limiter admission denied within its timeout, or the retry budget
exhausted — is caught inside the method and surfaced to the caller as a
`None` return (the same non-result as a data-less response), never as a
raised error. -/
theorem C1_failures_return_none (α : Type) (cache : APICache α) (key : String) (now : ℚ)
    (fetch : ℕ → Except PyError (Option α))
    (hmiss : (cache.get key now).1 = none) :
    ((get_historical_data true true cache key now false fetch).1 = none) ∧
    ((∀ j, ∃ e, fetch j = .error e) →
      (get_historical_data true true cache key now true fetch).1 = none) := by
  have hget : cache.get key now = (none, (cache.get key now).2) := by
    rcases h : cache.get key now with ⟨o, c'⟩
    rw [h] at hmiss
    simp only at hmiss
    rw [hmiss]
  constructor
  · rw [get_historical_data, hget]
    simp
  · intro hfetch
    have hfail : ∀ j, ∃ e, fetch j = .error e ∧ guardedRetryOn e = true :=
      fun j => ⟨(hfetch j).choose, (hfetch j).choose_spec, guardedRetryOn_true _⟩
    obtain ⟨e3, he3, -⟩ := hfail 3
    have hres : (execute_with_retry fetch 3 1 10 2 guardedRetryOn).result = .error e3 := by
      rw [execute_with_retry,
        executeAux_perm_fail fetch 1 10 2 guardedRetryOn hfail 3 0]
      simpa using he3
    rw [get_historical_data, hget]
    simp [hres]

/-- Witness for the amended C1 at concrete inputs: both failure modes
yield the `None` return. -/
theorem C1_failures_return_none_witness :
    ((get_historical_data true true (mkAPICache ℤ 1000 60) "k" 0 false
        (fun _ => .error (.networkError "down"))).1 = none) ∧
    ((get_historical_data true true (mkAPICache ℤ 1000 60) "k" 0 true
        (fun _ => .error (.networkError "down"))).1 = none) :=
  ⟨(C1_failures_return_none ℤ (mkAPICache ℤ 1000 60) "k" 0
      (fun _ => .error (.networkError "down")) rfl).1,
   (C1_failures_return_none ℤ (mkAPICache ℤ 1000 60) "k" 0
      (fun _ => .error (.networkError "down")) rfl).2
      (fun _ => ⟨.networkError "down", rfl⟩)⟩

/-! ## Cache-key generation (`APICache.generate_key`)

`generate_key` sorts the keyword parameters, serializes them as the JSON
of `sorted(params.items())` (a list of `[key, value]` pairs rendered with
`json.dumps`'s default separators), hashes the UTF-8 bytes with MD5 and
keeps the first 8 hex digits.  MD5 (RFC 1321) is embedded below over
`ℕ` with explicit `% 2^32` masking. -/

/-- Truncate to one 32-bit word. -/
def w32 (x : ℕ) : ℕ := x % 4294967296

/-- 32-bit left rotation (callers pass `x < 2^32`, `n ≤ 32`). -/
def rotl32 (x n : ℕ) : ℕ := w32 ((x <<< n) ||| (x >>> (32 - n)))

/-- The MD5 sine-derived constant table `K[i] = ⌊|sin(i+1)| * 2^32⌋`. -/
def md5K : List ℕ :=
  [0xd76aa478, 0xe8c7b756, 0x242070db, 0xc1bdceee,
   0xf57c0faf, 0x4787c62a, 0xa8304613, 0xfd469501,
   0x698098d8, 0x8b44f7af, 0xffff5bb1, 0x895cd7be,
   0x6b901122, 0xfd987193, 0xa679438e, 0x49b40821,
   0xf61e2562, 0xc040b340, 0x265e5a51, 0xe9b6c7aa,
   0xd62f105d, 0x02441453, 0xd8a1e681, 0xe7d3fbc8,
   0x21e1cde6, 0xc33707d6, 0xf4d50d87, 0x455a14ed,
   0xa9e3e905, 0xfcefa3f8, 0x676f02d9, 0x8d2a4c8a,
   0xfffa3942, 0x8771f681, 0x6d9d6122, 0xfde5380c,
   0xa4beea44, 0x4bdecfa9, 0xf6bb4b60, 0xbebfbc70,
   0x289b7ec6, 0xeaa127fa, 0xd4ef3085, 0x04881d05,
   0xd9d4d039, 0xe6db99e5, 0x1fa27cf8, 0xc4ac5665,
   0xf4292244, 0x432aff97, 0xab9423a7, 0xfc93a039,
   0x655b59c3, 0x8f0ccc92, 0xffeff47d, 0x85845dd1,
   0x6fa87e4f, 0xfe2ce6e0, 0xa3014314, 0x4e0811a1,
   0xf7537e82, 0xbd3af235, 0x2ad7d2bb, 0xeb86d391]

/-- The MD5 per-round left-rotation amounts. -/
def md5S : List ℕ :=
  [7, 12, 17, 22, 7, 12, 17, 22, 7, 12, 17, 22, 7, 12, 17, 22,
   5, 9, 14, 20, 5, 9, 14, 20, 5, 9, 14, 20, 5, 9, 14, 20,
   4, 11, 16, 23, 4, 11, 16, 23, 4, 11, 16, 23, 4, 11, 16, 23,
   6, 10, 15, 21, 6, 10, 15, 21, 6, 10, 15, 21, 6, 10, 15, 21]

/-- One of the 64 MD5 operations on the state `(a, b, c, d)` over a
16-word message block `M`. -/
def md5Step (M : List ℕ) (st : ℕ × ℕ × ℕ × ℕ) (idx : ℕ) : ℕ × ℕ × ℕ × ℕ :=
  let a := st.1
  let b := st.2.1
  let c := st.2.2.1
  let d := st.2.2.2
  let fg : ℕ × ℕ :=
    if idx < 16 then ((b &&& c) ||| ((b ^^^ 4294967295) &&& d), idx)
    else if idx < 32 then ((d &&& b) ||| ((d ^^^ 4294967295) &&& c), (5 * idx + 1) % 16)
    else if idx < 48 then (b ^^^ c ^^^ d, (3 * idx + 5) % 16)
    else (c ^^^ (b ||| (d ^^^ 4294967295)), (7 * idx) % 16)
  let tmp := w32 (a + fg.1 + md5K.getD idx 0 + M.getD fg.2 0)
  (d, w32 (b + rotl32 tmp (md5S.getD idx 0)), b, c)

/-- Process one 512-bit block. -/
def md5Chunk (h : ℕ × ℕ × ℕ × ℕ) (M : List ℕ) : ℕ × ℕ × ℕ × ℕ :=
  let r := (List.range 64).foldl (md5Step M) h
  (w32 (h.1 + r.1), w32 (h.2.1 + r.2.1), w32 (h.2.2.1 + r.2.2.1), w32 (h.2.2.2 + r.2.2.2))

/-- MD5 padding: a `0x80` byte, zeros to 56 mod 64, then the bit length
as eight little-endian bytes. -/
def md5Pad (msg : List ℕ) : List ℕ :=
  let len := msg.length
  let padZeros := (119 - (len % 64)) % 64
  msg ++ [128] ++ List.replicate padZeros 0 ++
    (List.range 8).map (fun j => ((8 * len) >>> (8 * j)) % 256)

/-- Group bytes into little-endian 32-bit words. -/
def bytesToW32 : List ℕ → List ℕ
  | b0 :: b1 :: b2 :: b3 :: rest =>
      (b0 + 256 * b1 + 65536 * b2 + 16777216 * b3) :: bytesToW32 rest
  | _ => []

/-- Fold the chunks; the fuel (the word count) dominates the number of
16-word blocks, so the loop always runs to completion. -/
def md5Blocks : ℕ → (ℕ × ℕ × ℕ × ℕ) → List ℕ → ℕ × ℕ × ℕ × ℕ
  | 0, h, _ => h
  | fuel + 1, h, ws =>
      if ws.isEmpty then h
      else md5Blocks fuel (md5Chunk h (ws.take 16)) (ws.drop 16)

/-- The MD5 initialization vector. -/
def md5IV : ℕ × ℕ × ℕ × ℕ := (0x67452301, 0xefcdab89, 0x98badcfe, 0x10325476)

/-- One word as four little-endian bytes. -/
def w32ToBytesLE (x : ℕ) : List ℕ :=
  [x % 256, (x >>> 8) % 256, (x >>> 16) % 256, (x >>> 24) % 256]

/-- The 16-byte MD5 digest of a byte sequence. -/
def md5Digest (msg : List ℕ) : List ℕ :=
  let ws := bytesToW32 (md5Pad msg)
  let r := md5Blocks ws.length md5IV ws
  w32ToBytesLE r.1 ++ w32ToBytesLE r.2.1 ++ w32ToBytesLE r.2.2.1 ++ w32ToBytesLE r.2.2.2

/-- Lowercase hex digit. -/
def hexChar (n : ℕ) : Char := if n < 10 then Char.ofNat (48 + n) else Char.ofNat (87 + n)

/-- A byte as two hex digits. -/
def byteToHex (b : ℕ) : List Char := [hexChar (b / 16), hexChar (b % 16)]

/-- `hashlib.md5(bytes).hexdigest()`. -/
def md5HexDigest (msg : List ℕ) : String :=
  String.mk ((md5Digest msg).map byteToHex).flatten

/-- `str.encode()`: UTF-8 bytes of a string; on the ASCII content
`generate_key` serializes, UTF-8 is the identity on code points. -/
def strBytes (s : String) : List ℕ := s.data.map Char.toNat

/-- `json.dumps` of a string that needs no escaping (the parameter names
used by the client are plain ASCII identifiers). -/
def jsonStr (s : String) : String := "\"" ++ s ++ "\""

/-- `json.dumps` of one `(key, value)` item tuple: a two-element JSON
array with the default `", "` separator. -/
def jsonPair (p : String × ℤ) : String :=
  "[" ++ jsonStr p.1 ++ ", " ++ toString p.2 ++ "]"

/-- `json.dumps(sorted_params, sort_keys=True)` for the sorted item
list. -/
def jsonParams (ps : List (String × ℤ)) : String :=
  "[" ++ String.intercalate ", " (ps.map jsonPair) ++ "]"

/-- Python string `<=`: lexicographic on code points. -/
def charListLe : List Char → List Char → Bool
  | [], _ => true
  | _ :: _, [] => false
  | c1 :: t1, c2 :: t2 =>
      if c1.toNat < c2.toNat then true
      else if c2.toNat < c1.toNat then false
      else charListLe t1 t2

/-- Python string `<=` on the underlying code points. -/
def strLe (a b : String) : Bool := charListLe a.data b.data

/-- Insertion step of `sorted(params.items())` by parameter name (the
keyword-argument names of one call are pairwise distinct, so the
comparison never reaches the values). -/
def insertPair (p : String × ℤ) : List (String × ℤ) → List (String × ℤ)
  | [] => [p]
  | q :: qs => if strLe p.1 q.1 then p :: q :: qs else q :: insertPair p qs

/-- `sorted(params.items())` by parameter name. -/
def sortParams : List (String × ℤ) → List (String × ℤ)
  | [] => []
  | p :: ps => insertPair p (sortParams ps)

/-- `APICache.generate_key(endpoint, **params)`: sort, serialize, hash,
keep 8 hex digits, prefix with the endpoint name. -/
def generate_key (endpoint : String) (params : List (String × ℤ)) : String :=
  let sorted_params := sortParams params
  let params_str := jsonParams sorted_params
  let params_hash := (md5HexDigest (strBytes params_str)).take 8
  endpoint ++ ":" ++ params_hash

theorem string_append_cancel_left (s t1 t2 : String) (h : s ++ t1 = s ++ t2) : t1 = t2 := by
  rcases s with ⟨ls⟩
  rcases t1 with ⟨l1⟩
  rcases t2 with ⟨l2⟩
  have hd : ls ++ l1 = ls ++ l2 := congrArg String.data h
  rw [List.append_cancel_left hd]

/-- Claim C8: `generate_key` is order-independent in its keyword
parameters and sensitive to their values, for every endpoint name. -/
theorem C8_generate_key (op : String) :
    generate_key op [("a", 1), ("b", 2)] = generate_key op [("b", 2), ("a", 1)] ∧
    generate_key op [("a", 1)] ≠ generate_key op [("a", 2)] := by
  constructor
  · have h : (md5HexDigest (strBytes (jsonParams (sortParams [("a", 1), ("b", 2)])))).take 8
        = (md5HexDigest (strBytes (jsonParams (sortParams [("b", 2), ("a", 1)])))).take 8 := by
      decide
    simp only [generate_key]
    rw [h]
  · intro hEq
    simp only [generate_key] at hEq
    have h12 := string_append_cancel_left (op ++ ":") _ _ hEq
    have hne : (md5HexDigest (strBytes (jsonParams (sortParams [("a", 1)])))).take 8
        ≠ (md5HexDigest (strBytes (jsonParams (sortParams [("a", 2)])))).take 8 := by
      decide
    exact hne h12

end AngelPredict
